import Mathlib

/-!
Shallow embedding of the `pal` parser-combinator engine
(`src/parser/mod.rs`, `src/parser/error.rs`, `src/parser/generators.rs`).

A Rust `Parser<T>` wraps an `Fn(String) -> Result<(T, String), ParseError>`;
we embed it as a function `List Char → Except ParseError (α × List Char)`
(a Rust `String` is traversed exclusively through `chars()`, so a list of
characters is a faithful model of the input).

The only non-structural recursion in the source is `Parser::many`, which
recurses through `Parser::lazy` at parse time and diverges when the repeated
parser succeeds without consuming input.  We model that recursion with an
explicit fuel parameter: `manyFuel p fuel input` returns `none` exactly when
the recursion of the code would still be running after `fuel` unfoldings,
i.e. `none` is the divergence marker.  `Parser.many` runs the fuelled
recursion with fuel `input.length + 1`, which is proved sufficient (and the
result proved fuel-independent) whenever the repeated parser consumes at
least one character on success — the obligation the spec imposes on every
parser passed to `many`/`some`.
-/

/-- The error type of `src/parser/error.rs`: the `Unit` sentinel and a
character mismatch carrying the expected and the found character, either of
which may be absent. -/
inductive ParseError where
  | Unit : ParseError
  | CharacterMismatch (expected : Option Char) (found : Option Char) : ParseError
deriving DecidableEq, Repr

/-- The derived Rust `Ord` on `Option<char>`: `None` is below every
`Some`, and two `Some`s compare by scalar value. -/
def optCharLt : Option Char → Option Char → Bool
  | none, some _ => true
  | some a, some b => decide (a.toNat < b.toNat)
  | _, _ => false

/-- The derived Rust `Ord` on `ParseError`: variants compare by declaration
order (`Unit` below `CharacterMismatch`), and two `CharacterMismatch`es
compare lexicographically by `expected`, then `found`. -/
def ParseError.lt : ParseError → ParseError → Bool
  | .Unit, .CharacterMismatch _ _ => true
  | .CharacterMismatch e1 f1, .CharacterMismatch e2 f2 =>
      optCharLt e1 e2 || (e1 == e2 && optCharLt f1 f2)
  | _, _ => false

/-- Rust's `Ord::max`: `a.max(b)` returns `a` when `b < a` and `b`
otherwise (on equal values it returns the second argument). -/
def ParseError.max (a b : ParseError) : ParseError :=
  if ParseError.lt b a then a else b

/-- The parser type of `src/parser/mod.rs`: a function from the input to
either a result together with the unconsumed remainder, or a parse error. -/
abbrev Parser (α : Type) : Type := List Char → Except ParseError (α × List Char)

/-- `Parser::pure`: always succeeds with the given value, consuming nothing. -/
def Parser.pure {α : Type} (value : α) : Parser α :=
  fun input => .ok (value, input)

/-- `Parser::empty`: always fails with the given error. -/
def Parser.empty {α : Type} (value : ParseError) : Parser α :=
  fun _ => .error value

/-- `Parser::lazy`: defers construction of the wrapped parser to parse time. -/
def Parser.lazy {α : Type} (producer : Unit → Parser α) : Parser α :=
  fun input => producer () input

/-- `Parser::map`: transforms a successful result, passing failures through. -/
def Parser.map {α β : Type} (p : Parser α) (f : α → β) : Parser β :=
  fun input =>
    match p input with
    | .ok (result, rest) => .ok (f result, rest)
    | .error e => .error e

/-- `Parser::chain`: runs the first parser, then the second on the
remainder, pairing the results; the first failure wins. -/
def Parser.chain {α β : Type} (p : Parser α) (other : Parser β) : Parser (α × β) :=
  fun input =>
    match p input with
    | .ok (resultA, rest) =>
        match other rest with
        | .ok (resultB, rest2) => .ok ((resultA, resultB), rest2)
        | .error e => .error e
    | .error e => .error e

/-- `Parser::left`: chains two parsers and keeps the left result. -/
def Parser.left {α β : Type} (p : Parser α) (other : Parser β) : Parser α :=
  Parser.map (Parser.chain p other) (fun result => result.1)

/-- `Parser::right`: chains two parsers and keeps the right result. -/
def Parser.right {α β : Type} (p : Parser α) (other : Parser β) : Parser β :=
  Parser.map (Parser.chain p other) (fun result => result.2)

/-- `Parser::or`: runs the first parser; on failure runs the second on the
same original input; when both fail, reports `parse_error_a.max(parse_error_b)`. -/
def Parser.or {α : Type} (p : Parser α) (other : Parser α) : Parser α :=
  fun input =>
    match p input with
    | .ok result => .ok result
    | .error parseErrorA =>
        match other input with
        | .ok result => .ok result
        | .error parseErrorB => .error (ParseError.max parseErrorA parseErrorB)

/-- `Parser::maybe`: wraps success in `some` and turns failure into `none`. -/
def Parser.maybe {α : Type} (p : Parser α) : Parser (Option α) :=
  Parser.or (Parser.map p some) (Parser.pure none)

/-- The parse-time recursion of `Parser::many`, made explicit with fuel.
One unfolding of the code's chain of one occurrence with a lazy recursive
call to `many`, mapped through cons and recovered by `or(pure(vec![]))`,
either stops
(the repeated parser fails, and the `or` falls back to the empty list on the
untouched input) or consumes one occurrence and recurses on the remainder.
`none` marks the recursion still running when the fuel is exhausted, i.e.
divergence of the code. The inner recursive call never fails (its own `or`
falls back to `pure`), so the result needs no error case. -/
def Parser.manyFuel {α : Type} (p : Parser α) : Nat → List Char → Option (List α × List Char)
  | 0, _ => none
  | fuel + 1, input =>
      match p input with
      | .error _ => some ([], input)
      | .ok (x, rest) =>
          match Parser.manyFuel p fuel rest with
          | none => none
          | some (xs, rest2) => some (x :: xs, rest2)

/-- `Parser::many`: zero-or-more repetitions. The fuel `input.length + 1`
is sufficient for every parser that consumes at least one character on
success; the `Unit` error on fuel exhaustion is unreachable for such
parsers and stands for the divergence of the code. -/
def Parser.many {α : Type} (p : Parser α) : Parser (List α) :=
  fun input =>
    match Parser.manyFuel p (input.length + 1) input with
    | some (xs, rest) => .ok (xs, rest)
    | none => .error ParseError.Unit

/-- `Parser::some`: one mandatory occurrence chained with `many` of the
same parser, results merged into one list. -/
def Parser.some {α : Type} (p : Parser α) : Parser (List α) :=
  Parser.map (Parser.chain p (Parser.many p)) (fun x => x.1 :: x.2)

/-- `generators::char`: matches exactly the given character; on any other
head (or end of input) fails with a `CharacterMismatch` recording the
expected character and the found one, if any. -/
def char (allowed : Char) : Parser Char :=
  fun input =>
    match input with
    | c :: rest =>
        if c == allowed then .ok (c, rest)
        else .error (.CharacterMismatch (some allowed) (some c))
    | [] => .error (.CharacterMismatch (some allowed) none)

/-- `generators::alt`: folds a sequence of parsers with `or`, left to
right; the empty sequence yields `empty(Unit)`. -/
def alt {α : Type} : List (Parser α) → Parser α
  | next :: rest => Parser.or next (alt rest)
  | [] => Parser.empty ParseError.Unit

/-- `generators::list`: folds a sequence of characters into a parser by
mapping `char` and applying `alt`. -/
def list (allowed : List Char) : Parser Char :=
  alt (allowed.map char)

/-- `generators::between`: three parsers in a row, keeping the middle result. -/
def between {α β γ : Type} (a : Parser α) (b : Parser β) (c : Parser γ) : Parser β :=
  Parser.left (Parser.right a b) c

/-- The whitespace characters of `generators::whitespace`. -/
def wsChars : List Char := [' ', '\n', '\t', '\r']

/-- `generators::whitespace`: matches one whitespace character. -/
def whitespace : Parser Char :=
  list wsChars

/-- `generators::strip`: the wrapped parser between zero-or-more
whitespace characters on each side. -/
def strip {α : Type} (p : Parser α) : Parser α :=
  between (Parser.many whitespace) p (Parser.many whitespace)

/-- The inclusive character range used by the Rust `char` range iterators. -/
def charRange (lo hi : Char) : List Char :=
  (List.range (hi.toNat + 1 - lo.toNat)).map (fun i => Char.ofNat (lo.toNat + i))

/-- `generators::lowercase`: one lowercase letter. -/
def lowercase : Parser Char :=
  list (charRange 'a' 'z')

/-- `generators::uppercase`: one uppercase letter. -/
def uppercase : Parser Char :=
  list (charRange 'A' 'Z')

/-- The non-alphabetic identifier characters of `generators::other`. -/
def otherChars : List Char := ['_']

/-- `generators::other`: one non-alphabetic identifier character. -/
def other : Parser Char :=
  list otherChars

/-- `generators::letter`: lowercase, uppercase, or `other`. -/
def letter : Parser Char :=
  Parser.or (Parser.or lowercase uppercase) other

/-- `generators::digit`: one decimal digit. -/
def digit : Parser Char :=
  list (charRange '0' '9')

/-- `generators::alphanum`: a letter or a digit. -/
def alphanum : Parser Char :=
  Parser.or letter digit

/-- `generators::identifier`: a letter followed by zero-or-more
alphanumeric characters, stripped of surrounding whitespace, the characters
collected into one result. -/
def identifier : Parser (List Char) :=
  Parser.map (strip (Parser.chain letter (Parser.many alphanum)))
    (fun x => x.1 :: x.2)

/-- `generators::string`: matches the exact character sequence of the
literal, one `char` at a time, chained recursively; the empty literal is
`pure("")`. Does not consume whitespace. -/
def string : List Char → Parser (List Char)
  | next :: rest =>
      Parser.map (Parser.chain (char next) (string rest)) (fun x => x.1 :: x.2)
  | [] => Parser.pure []

/-- `generators::symbol`: the literal with surrounding whitespace stripped. -/
def symbol (input : List Char) : Parser (List Char) :=
  strip (string input)

/-- A parser is productive when every success consumes at least one input
character — the obligation the spec imposes on parsers passed to
`many`/`some`. -/
def Productive {α : Type} (p : Parser α) : Prop :=
  ∀ input x rest, p input = .ok (x, rest) → rest.length < input.length

/-- The character class accepted by `whitespace`, as a Boolean predicate. -/
def isWs (c : Char) : Bool :=
  decide (c ∈ wsChars)

/-- The character class accepted by `letter`, as a Boolean predicate. -/
def isLetterChar (c : Char) : Bool :=
  decide (c ∈ charRange 'a' 'z' ∨ c ∈ charRange 'A' 'Z' ∨ c ∈ otherChars)

/- Helper lemmas about the combinators, shared by the claim theorems. -/

theorem map_error {α β : Type} {p : Parser α} {f : α → β} {s : List Char}
    {e : ParseError} (hp : p s = .error e) : Parser.map p f s = .error e := by
  simp [Parser.map, hp]

theorem map_ok {α β : Type} {p : Parser α} {f : α → β} {s rest : List Char}
    {x : α} (hp : p s = .ok (x, rest)) : Parser.map p f s = .ok (f x, rest) := by
  simp [Parser.map, hp]

theorem chain_error_left {α β : Type} {p : Parser α} {q : Parser β}
    {s : List Char} {e : ParseError} (hp : p s = .error e) :
    Parser.chain p q s = .error e := by
  simp [Parser.chain, hp]

theorem chain_error_right {α β : Type} {p : Parser α} {q : Parser β}
    {s rest : List Char} {x : α} {e : ParseError}
    (hp : p s = .ok (x, rest)) (hq : q rest = .error e) :
    Parser.chain p q s = .error e := by
  simp [Parser.chain, hp, hq]

theorem chain_ok {α β : Type} {p : Parser α} {q : Parser β}
    {s rest rest2 : List Char} {x : α} {y : β}
    (hp : p s = .ok (x, rest)) (hq : q rest = .ok (y, rest2)) :
    Parser.chain p q s = .ok ((x, y), rest2) := by
  simp [Parser.chain, hp, hq]

theorem or_error {α : Type} {p q : Parser α} {s : List Char}
    {ea eb : ParseError} (hp : p s = .error ea) (hq : q s = .error eb) :
    Parser.or p q s = .error (ParseError.max ea eb) := by
  simp [Parser.or, hp, hq]

theorem or_ok_left {α : Type} {p q : Parser α} {s : List Char}
    {r : α × List Char} (hp : p s = .ok r) : Parser.or p q s = .ok r := by
  simp [Parser.or, hp]

theorem or_ok_right {α : Type} {p q : Parser α} {s : List Char}
    {e : ParseError} {r : α × List Char} (hp : p s = .error e)
    (hq : q s = .ok r) : Parser.or p q s = .ok r := by
  simp [Parser.or, hp, hq]

theorem char_productive (c : Char) : Productive (char c) := by
  intro input x rest h
  cases input with
  | nil => simp [char] at h
  | cons d tl =>
      by_cases hd : d == c
      · simp [char, hd] at h
        simp [h.2.symm]
      · simp [char, hd] at h

theorem manyFuel_isSome {α : Type} (p : Parser α) (hp : Productive p) :
    ∀ (fuel : Nat) (input : List Char), input.length < fuel →
      (Parser.manyFuel p fuel input).isSome = true := by
  intro fuel
  induction fuel with
  | zero => intro input h; omega
  | succ n ih =>
      intro input h
      cases hpi : p input with
      | error e => simp [Parser.manyFuel, hpi]
      | ok v =>
          obtain ⟨x, rest⟩ := v
          have hlt : rest.length < input.length := hp input x rest hpi
          have hrec := ih rest (by omega)
          cases hm : Parser.manyFuel p n rest with
          | none => rw [hm] at hrec; simp at hrec
          | some v2 =>
              obtain ⟨xs, r2⟩ := v2
              simp [Parser.manyFuel, hpi, hm]

theorem manyFuel_stable {α : Type} (p : Parser α) (hp : Productive p) :
    ∀ (f1 f2 : Nat) (input : List Char), input.length < f1 →
      input.length < f2 →
      Parser.manyFuel p f1 input = Parser.manyFuel p f2 input := by
  intro f1
  induction f1 with
  | zero => intro f2 input h1 h2; omega
  | succ n ih =>
      intro f2 input h1 h2
      cases f2 with
      | zero => omega
      | succ m =>
          cases hpi : p input with
          | error e => simp [Parser.manyFuel, hpi]
          | ok v =>
              obtain ⟨x, rest⟩ := v
              have hlt : rest.length < input.length := hp input x rest hpi
              have := ih m rest (by omega) (by omega)
              simp [Parser.manyFuel, hpi, this]

theorem many_ok {α : Type} (p : Parser α) (hp : Productive p)
    (input : List Char) : ∃ r, Parser.many p input = .ok r := by
  have h := manyFuel_isSome p hp (input.length + 1) input (by omega)
  cases hm : Parser.manyFuel p (input.length + 1) input with
  | none => rw [hm] at h; simp at h
  | some v =>
      obtain ⟨xs, rest⟩ := v
      exact ⟨(xs, rest), by simp [Parser.many, hm]⟩

/-- C1: Backtracking of alternation — for every pair of parsers `p` and `q`
and every input `s`, if `p` fails on `s` then `or(p, q)` runs `q` against
the same original input `s` (any partial consumption inside `p` is
discarded), so when `q` succeeds on `s`, `or(p, q).parse(s)` returns
exactly the success result of `q` on `s`. -/
theorem or_backtracks (α : Type) (p q : Parser α) (s : List Char)
    (e : ParseError) (r : α × List Char)
    (hp : p s = .error e) (hq : q s = .ok r) :
    Parser.or p q s = .ok r :=
  or_ok_right hp hq

/-- Witness for C1, with a first parser that consumes one character before
failing: the alternative still sees the whole original input. -/
theorem or_backtracks_witness :
    Parser.or (Parser.chain (char 'b') (char 'c'))
      (Parser.chain (char 'b') (char 'a')) ['b', 'a'] = .ok (('b', 'a'), []) :=
  or_backtracks (Char × Char) (Parser.chain (char 'b') (char 'c'))
    (Parser.chain (char 'b') (char 'a')) ['b', 'a']
    (.CharacterMismatch (some 'c') (some 'a')) (('b', 'a'), []) rfl rfl

/-- C2: Error selection in alternation — when both branches fail, `or`
fails with `max(errorA, errorB)` under the derived total order on
`ParseError`, in which `CharacterMismatch` outranks `Unit` and two
`CharacterMismatch`es compare by their fields; in particular
`or(empty(Unit), char('a'))` on `"b"` reports the mismatch, not `Unit`. -/
theorem or_error_selection :
    (∀ (α : Type) (p q : Parser α) (s : List Char) (ea eb : ParseError),
        p s = .error ea → q s = .error eb →
        Parser.or p q s = .error (ParseError.max ea eb)) ∧
    (∀ e f, ParseError.lt ParseError.Unit (ParseError.CharacterMismatch e f)
        = true) ∧
    Parser.or (Parser.empty ParseError.Unit) (char 'a') ['b'] =
      .error (.CharacterMismatch (some 'a') (some 'b')) := by
  refine ⟨?_, ?_, rfl⟩
  · intro α p q s ea eb hp hq
    exact or_error hp hq
  · intro e f
    rfl

/-- Witness for C2: both branches fail on a concrete input and the reported
error is the maximum of the two mismatches. -/
theorem or_error_selection_witness :
    Parser.or (char 'a') (char 'b') ['c'] =
      .error (ParseError.max (.CharacterMismatch (some 'a') (some 'c'))
        (.CharacterMismatch (some 'b') (some 'c'))) :=
  or_error_selection.1 Char (char 'a') (char 'b') ['c']
    (.CharacterMismatch (some 'a') (some 'c'))
    (.CharacterMismatch (some 'b') (some 'c')) rfl rfl

/-- C5: Sequencing — `chain(p, q)` succeeds with the pair of both results
(running `q` on the remainder left by `p`) if and only if both parses
succeed, and otherwise fails with the error of whichever parser failed
first: `p`'s error if `p` fails, `q`'s error if `p` succeeds and `q`
fails. -/
theorem chain_sequencing (α β : Type) (p : Parser α) (q : Parser β)
    (s : List Char) :
    (∀ e, p s = .error e → Parser.chain p q s = .error e) ∧
    (∀ x rest e, p s = .ok (x, rest) → q rest = .error e →
        Parser.chain p q s = .error e) ∧
    (∀ x rest y rest2, p s = .ok (x, rest) → q rest = .ok (y, rest2) →
        Parser.chain p q s = .ok ((x, y), rest2)) ∧
    ((∃ v, Parser.chain p q s = .ok v) ↔
        ∃ x rest, p s = .ok (x, rest) ∧ ∃ y rest2, q rest = .ok (y, rest2)) := by
  refine ⟨fun e hp => chain_error_left hp,
    fun x rest e hp hq => chain_error_right hp hq,
    fun x rest y rest2 hp hq => chain_ok hp hq, ?_, ?_⟩
  · rintro ⟨v, hv⟩
    cases hpi : p s with
    | error e => rw [chain_error_left hpi] at hv; exact absurd hv (by simp)
    | ok w =>
        obtain ⟨x, rest⟩ := w
        cases hqi : q rest with
        | error e => rw [chain_error_right hpi hqi] at hv; exact absurd hv (by simp)
        | ok w2 =>
            obtain ⟨y, rest2⟩ := w2
            exact ⟨x, rest, rfl, y, rest2, hqi⟩
  · rintro ⟨x, rest, hpi, y, rest2, hqi⟩
    exact ⟨((x, y), rest2), chain_ok hpi hqi⟩

/-- Witness for C5: both parsers succeed on a concrete input and the chain
returns the pair, with the failure cases exercised on concrete inputs as
well. -/
theorem chain_sequencing_witness :
    Parser.chain (char 'a') (char 'b') ['a', 'b'] = .ok (('a', 'b'), []) ∧
    Parser.chain (char 'a') (char 'b') ['c', 'b'] =
      .error (.CharacterMismatch (some 'a') (some 'c')) ∧
    Parser.chain (char 'a') (char 'b') ['a', 'c'] =
      .error (.CharacterMismatch (some 'b') (some 'c')) :=
  ⟨(chain_sequencing Char Char (char 'a') (char 'b') ['a', 'b']).2.2.1
      'a' ['b'] 'b' [] rfl rfl,
   (chain_sequencing Char Char (char 'a') (char 'b') ['c', 'b']).1
      (.CharacterMismatch (some 'a') (some 'c')) rfl,
   (chain_sequencing Char Char (char 'a') (char 'b') ['a', 'c']).2.1
      'a' ['c'] (.CharacterMismatch (some 'b') (some 'c')) rfl rfl⟩

/-- C6: Single-character matching — `char(c)` succeeds returning `(c, rest)`
and consuming exactly one character when the input starts with `c`; on any
other input it fails with a `CharacterMismatch` whose `expected` is
`Some(c)` and whose `found` is the head of the input, or `None` when the
input is empty. -/
theorem char_spec (c : Char) :
    (∀ rest, char c (c :: rest) = .ok (c, rest)) ∧
    char c [] = .error (.CharacterMismatch (some c) none) ∧
    (∀ d rest, d ≠ c →
        char c (d :: rest) = .error (.CharacterMismatch (some c) (some d))) := by
  refine ⟨fun rest => by simp [char], rfl, fun d rest hdc => by simp [char, hdc]⟩

/-- Witness for C6: the success case and the mismatch case at concrete
characters. -/
theorem char_spec_witness :
    char 'a' ['a', 'b'] = .ok ('a', ['b']) ∧
    char 'a' ['b'] = .error (.CharacterMismatch (some 'a') (some 'b')) :=
  ⟨(char_spec 'a').1 ['b'], (char_spec 'a').2.2 'b' [] (by decide)⟩

/-- C9: Alternation fold identity — `alt` folds its parsers with `or` left
to right, `list` folds the `char` parsers of its characters, and the empty
sequence folds to `empty(Unit)`, so `alt` of no parsers fails on every
input with exactly the `Unit` sentinel error. -/
theorem alt_fold_identity :
    (∀ (α : Type) (p : Parser α) (ps : List (Parser α)),
        alt (p :: ps) = Parser.or p (alt ps)) ∧
    (∀ (cs : List Char), list cs = alt (cs.map char)) ∧
    (∀ (α : Type) (s : List Char),
        alt ([] : List (Parser α)) s = .error ParseError.Unit) :=
  ⟨fun _ _ _ => rfl, fun _ => rfl, fun _ _ => rfl⟩

/-- C10: `string` applied to the empty literal equals `pure` of the empty
string — on every input it succeeds with the empty result and the untouched
input, consuming nothing; consequently `many` of it never terminates, which
the fuelled model expresses by running out of any amount of fuel. -/
theorem string_empty_pure :
    (∀ s, string [] s = .ok ([], s)) ∧
    (∀ (fuel : Nat) (s : List Char),
        Parser.manyFuel (string []) fuel s = none) := by
  refine ⟨fun s => rfl, ?_⟩
  intro fuel
  induction fuel with
  | zero => intro s; rfl
  | succ n ih =>
      intro s
      have h1 : string [] s = .ok ([], s) := rfl
      simp [Parser.manyFuel, h1, ih]

/-- C3: Totality and behaviour of `many` — for every parser that cannot
succeed while consuming zero input, `many` terminates on every input
(the fuelled recursion reaches a fixed, fuel-independent answer) and never
fails, collecting the consecutive successes; in particular
`many(char('a'))` on `"aaab"` yields `(['a','a','a'], "b")` and on
`"bbbb"` yields `([], "bbbb")`. -/
theorem many_totality :
    (∀ (α : Type) (p : Parser α), Productive p →
        ∀ (input : List Char) (fuel : Nat), input.length < fuel →
          Parser.manyFuel p fuel input =
              Parser.manyFuel p (input.length + 1) input ∧
            (Parser.manyFuel p fuel input).isSome = true) ∧
    (∀ (α : Type) (p : Parser α), Productive p →
        ∀ input, ∃ r, Parser.many p input = .ok r) ∧
    Parser.many (char 'a') ['a', 'a', 'a', 'b'] =
      .ok (['a', 'a', 'a'], ['b']) ∧
    Parser.many (char 'a') ['b', 'b', 'b', 'b'] =
      .ok ([], ['b', 'b', 'b', 'b']) := by
  refine ⟨?_, ?_, rfl, rfl⟩
  · intro α p hp input fuel h
    exact ⟨manyFuel_stable p hp fuel (input.length + 1) input h (by omega),
      manyFuel_isSome p hp fuel input h⟩
  · intro α p hp input
    exact many_ok p hp input

/-- Witness for C3: the fuelled recursion for `char('a')` is settled and
fuel-independent on a concrete input, and `many` succeeds there. -/
theorem many_totality_witness :
    (Parser.manyFuel (char 'a') 7 ['a', 'b'] =
        Parser.manyFuel (char 'a') (['a', 'b'].length + 1) ['a', 'b'] ∧
      (Parser.manyFuel (char 'a') 7 ['a', 'b']).isSome = true) ∧
    ∃ r, Parser.many (char 'a') ['a', 'b'] = .ok r :=
  ⟨many_totality.1 Char (char 'a') (char_productive 'a') ['a', 'b'] 7
      (by decide),
    many_totality.2.1 Char (char 'a') (char_productive 'a') ['a', 'b']⟩

/-- C4: Failure condition of `some` — for every productive parser `p` and
every input `s`, `some(p)` fails exactly when the first occurrence of `p`
fails on `s`, and then with exactly the error `p` alone produces; in
particular `some(char('a'))` on `"bbbb"` fails with
`CharacterMismatch{expected: Some('a'), found: Some('b')}`. -/
theorem some_failure :
    (∀ (α : Type) (p : Parser α), Productive p →
        ∀ (s : List Char) (e : ParseError),
          (Parser.some p s = .error e ↔ p s = .error e)) ∧
    Parser.some (char 'a') ['b', 'b', 'b', 'b'] =
      .error (.CharacterMismatch (some 'a') (some 'b')) := by
  refine ⟨?_, rfl⟩
  intro α p hp s e
  constructor
  · intro h
    cases hpi : p s with
    | error e2 =>
        have hs : Parser.some p s = .error e2 :=
          map_error (chain_error_left hpi)
        rw [h] at hs
        injection hs with he
        rw [he]
    | ok v =>
        obtain ⟨x, rest⟩ := v
        obtain ⟨⟨xs, rest2⟩, hm⟩ := many_ok p hp rest
        have hs : Parser.some p s = .ok (x :: xs, rest2) :=
          map_ok (chain_ok hpi hm)
        rw [h] at hs
        cases hs
  · intro h
    exact map_error (chain_error_left h)

/-- Witness for C4: `some(char('a'))` on a concrete non-matching input
fails with exactly the error of `char('a')` on that input. -/
theorem some_failure_witness :
    Parser.some (char 'a') ['c'] =
      .error (.CharacterMismatch (some 'a') (some 'c')) :=
  (some_failure.1 Char (char 'a') (char_productive 'a') ['c']
      (.CharacterMismatch (some 'a') (some 'c'))).2 rfl

/- Lemmas about the character-class parsers built from `list`/`alt`. -/

theorem char_ok_inv {c : Char} {input rest : List Char} {x : Char}
    (h : char c input = .ok (x, rest)) : x = c ∧ input = x :: rest := by
  cases input with
  | nil => simp [char] at h
  | cons d tl =>
      by_cases hdc : d == c
      · have hdc2 : d = c := by simpa using hdc
        simp [char, hdc] at h
        exact ⟨h.1.symm.trans hdc2, by rw [h.1, h.2]⟩
      · simp [char, hdc] at h

theorem or_ok_inv {α : Type} {p q : Parser α} {s : List Char}
    {r : α × List Char} (h : Parser.or p q s = .ok r) :
    p s = .ok r ∨ ((∃ e, p s = .error e) ∧ q s = .ok r) := by
  unfold Parser.or at h
  cases hp : p s with
  | ok w => rw [hp] at h; exact Or.inl h
  | error e =>
      rw [hp] at h
      cases hq : q s with
      | ok w => rw [hq] at h; exact Or.inr ⟨⟨e, rfl⟩, h⟩
      | error e2 => rw [hq] at h; cases h

theorem list_cons_of_mem {cs : List Char} {c : Char} (r : List Char)
    (h : c ∈ cs) : list cs (c :: r) = .ok (c, r) := by
  induction cs with
  | nil => cases h
  | cons d ds ih =>
      show Parser.or (char d) (alt (ds.map char)) (c :: r) = .ok (c, r)
      by_cases hcd : c == d
      · exact or_ok_left (by simp [char, hcd])
      · have hmem : c ∈ ds := by
          cases h with
          | head => exact absurd (by simp) hcd
          | tail _ hm => exact hm
        have hcharErr :
            char d (c :: r) = .error (.CharacterMismatch (some d) (some c)) := by
          simp [char, hcd]
        exact or_ok_right hcharErr (ih hmem)

theorem list_cons_of_not_mem (cs : List Char) {c : Char} (r : List Char)
    (h : c ∉ cs) : ∃ e, list cs (c :: r) = .error e := by
  induction cs with
  | nil => exact ⟨ParseError.Unit, rfl⟩
  | cons d ds ih =>
      have hcd : ¬(c == d) := by
        intro hb
        exact h (by simp at hb; simp [hb])
      obtain ⟨e, he⟩ := ih (fun hm => h (List.mem_cons_of_mem d hm))
      refine ⟨ParseError.max (.CharacterMismatch (some d) (some c)) e, ?_⟩
      show Parser.or (char d) (alt (ds.map char)) (c :: r) = _
      exact or_error (by simp [char, hcd]) he

theorem list_nil_err (cs : List Char) : ∃ e, list cs [] = .error e := by
  induction cs with
  | nil => exact ⟨ParseError.Unit, rfl⟩
  | cons d ds ih =>
      obtain ⟨e, he⟩ := ih
      refine ⟨ParseError.max (.CharacterMismatch (some d) none) e, ?_⟩
      show Parser.or (char d) (alt (ds.map char)) [] = _
      exact or_error rfl he

theorem list_shape {cs : List Char} {input rest : List Char} {x : Char}
    (h : list cs input = .ok (x, rest)) : input = x :: rest := by
  induction cs with
  | nil => cases h
  | cons d ds ih =>
      have h2 : Parser.or (char d) (alt (ds.map char)) input = .ok (x, rest) := h
      rcases or_ok_inv h2 with hc | ⟨_, hc⟩
      · exact (char_ok_inv hc).2
      · exact ih hc

theorem list_productive (cs : List Char) : Productive (list cs) := by
  intro input x rest h
  rw [list_shape h]
  simp

theorem whitespace_productive : Productive whitespace :=
  list_productive wsChars

/-- `many(whitespace)` consumes exactly the maximal leading run of
whitespace characters. -/
theorem many_whitespace_run (s : List Char) :
    Parser.many whitespace s = .ok (s.takeWhile isWs, s.dropWhile isWs) := by
  have key : ∀ (fuel : Nat) (s : List Char), s.length < fuel →
      Parser.manyFuel whitespace fuel s =
        some (s.takeWhile isWs, s.dropWhile isWs) := by
    intro fuel
    induction fuel with
    | zero => intro s h; omega
    | succ n ih =>
        intro s h
        cases s with
        | nil =>
            obtain ⟨e, he⟩ := list_nil_err wsChars
            simp [Parser.manyFuel, whitespace, he]
        | cons c cr =>
            by_cases hc : isWs c
            · have hmem : c ∈ wsChars := by simpa [isWs] using hc
              have hws : whitespace (c :: cr) = .ok (c, cr) :=
                list_cons_of_mem cr hmem
              have ihr := ih cr (by simp at h; omega)
              simp [Parser.manyFuel, hws, ihr, hc]
            · have hmem : c ∉ wsChars := by simpa [isWs] using hc
              obtain ⟨e, he⟩ := list_cons_of_not_mem wsChars cr hmem
              have hws : whitespace (c :: cr) = .error e := he
              simp [Parser.manyFuel, hws, hc]
  have hk := key (s.length + 1) s (by omega)
  simp [Parser.many, hk]

theorem letter_err {c : Char} (r : List Char) (h : isLetterChar c = false) :
    ∃ e, letter (c :: r) = .error e := by
  have h2 : ¬(c ∈ charRange 'a' 'z' ∨ c ∈ charRange 'A' 'Z' ∨
      c ∈ otherChars) := by simpa [isLetterChar] using h
  push_neg at h2
  obtain ⟨e1, he1⟩ := list_cons_of_not_mem (charRange 'a' 'z') r h2.1
  obtain ⟨e2, he2⟩ := list_cons_of_not_mem (charRange 'A' 'Z') r h2.2.1
  obtain ⟨e3, he3⟩ := list_cons_of_not_mem otherChars r h2.2.2
  exact ⟨ParseError.max (ParseError.max e1 e2) e3,
    or_error (or_error he1 he2) he3⟩

/-- When the first character past the leading whitespace cannot start an
identifier, `identifier` fails. -/
theorem identifier_err (s : List Char) (c : Char) (r : List Char)
    (hdrop : s.dropWhile isWs = c :: r) (hc : isLetterChar c = false) :
    ∃ e, identifier s = .error e := by
  obtain ⟨e, he⟩ := letter_err r hc
  have hws := many_whitespace_run s
  rw [hdrop] at hws
  have hcore : Parser.chain letter (Parser.many alphanum) (c :: r) = .error e :=
    chain_error_left he
  have h1 : Parser.chain (Parser.many whitespace)
      (Parser.chain letter (Parser.many alphanum)) s = .error e :=
    chain_error_right hws hcore
  have h2 : Parser.right (Parser.many whitespace)
      (Parser.chain letter (Parser.many alphanum)) s = .error e :=
    map_error h1
  have h3 : Parser.chain
      (Parser.right (Parser.many whitespace)
        (Parser.chain letter (Parser.many alphanum)))
      (Parser.many whitespace) s = .error e :=
    chain_error_left h2
  have h4 : strip (Parser.chain letter (Parser.many alphanum)) s = .error e :=
    map_error h3
  exact ⟨e, map_error h4⟩

/-- C7: Identifier recognition — `identifier()` parses one letter followed
by zero-or-more alphanumeric characters, collected into a string and
stripped of surrounding whitespace: on `"abc123 rest"` it yields
`("abc123", "rest")`; it fails on any input whose first non-whitespace
character is not a valid identifier-start character, e.g. on `"123abc"`. -/
theorem identifier_spec :
    identifier ['a', 'b', 'c', '1', '2', '3', ' ', 'r', 'e', 's', 't'] =
      .ok (['a', 'b', 'c', '1', '2', '3'], ['r', 'e', 's', 't']) ∧
    (∀ (s : List Char) (c : Char) (r : List Char),
        s.dropWhile isWs = c :: r → isLetterChar c = false →
        ∃ e, identifier s = .error e) ∧
    (∃ e, identifier ['1', '2', '3', 'a', 'b', 'c'] = .error e) := by
  refine ⟨rfl, identifier_err, ?_⟩
  exact identifier_err ['1', '2', '3', 'a', 'b', 'c'] '1' ['2', '3', 'a', 'b', 'c']
    (by decide) (by decide)

/-- Witness for C7: the failure case applied at a concrete input whose
first non-whitespace character is a digit. -/
theorem identifier_spec_witness :
    ∃ e, identifier [' ', '1', 'a'] = .error e :=
  identifier_spec.2.1 [' ', '1', 'a'] '1' ['a'] (by decide) (by decide)

/- Lemmas about `string`, shared by the C8 theorem. -/

theorem string_append (lit : List Char) :
    ∀ rest, string lit (lit ++ rest) = .ok (lit, rest) := by
  induction lit with
  | nil => intro rest; rfl
  | cons c cs ih =>
      intro rest
      have h1 : char c (c :: (cs ++ rest)) = .ok (c, cs ++ rest) := by
        simp [char]
      exact map_ok (chain_ok h1 (ih rest))

theorem string_ok_inv (lit : List Char) :
    ∀ (s v rest : List Char), string lit s = .ok (v, rest) →
      v = lit ∧ s = lit ++ rest := by
  induction lit with
  | nil =>
      intro s v rest h
      have h2 : (Except.ok (([] : List Char), s) :
          Except ParseError (List Char × List Char)) = .ok (v, rest) := h
      injection h2 with h3
      injection h3 with h4 h5
      exact ⟨h4.symm, h5⟩
  | cons c cs ih =>
      intro s v rest h
      cases s with
      | nil =>
          have hc : char c [] = .error (.CharacterMismatch (some c) none) := rfl
          have h2 : string (c :: cs) [] =
              .error (.CharacterMismatch (some c) none) :=
            map_error (chain_error_left hc)
          rw [h] at h2
          cases h2
      | cons d tl =>
          by_cases hdc : d == c
          · have hdc2 : d = c := by simpa using hdc
            have hc : char c (d :: tl) = .ok (d, tl) := by simp [char, hdc]
            cases hst : string cs tl with
            | error e =>
                have h2 : string (c :: cs) (d :: tl) = .error e :=
                  map_error (chain_error_right hc hst)
                rw [h] at h2
                cases h2
            | ok w =>
                obtain ⟨xs, rest2⟩ := w
                obtain ⟨hxs, htl⟩ := ih tl xs rest2 hst
                have h2 : string (c :: cs) (d :: tl) = .ok (d :: xs, rest2) :=
                  map_ok (chain_ok hc hst)
                rw [h] at h2
                injection h2 with h3
                injection h3 with h4 h5
                subst hdc2 hxs htl h5
                exact ⟨h4, rfl⟩
          · have hc : char c (d :: tl) =
                .error (.CharacterMismatch (some c) (some d)) := by
              simp [char, hdc]
            have h2 : string (c :: cs) (d :: tl) =
                .error (.CharacterMismatch (some c) (some d)) :=
              map_error (chain_error_left hc)
            rw [h] at h2
            cases h2

/-- C8: Literal versus symbol matching — `string(literal)` matches exactly
the character sequence of the literal (it succeeds precisely on inputs that
start with the literal, consuming it and nothing else, in particular no
whitespace), while `symbol(literal)` is `strip(string(literal))`, consuming
whitespace on both sides: `symbol("fn")` on `"  fn  x"` yields
`("fn", "x")`. -/
theorem string_symbol_spec :
    (∀ (lit rest : List Char), string lit (lit ++ rest) = .ok (lit, rest)) ∧
    (∀ (lit s v rest : List Char), string lit s = .ok (v, rest) →
        v = lit ∧ s = lit ++ rest) ∧
    (∀ (lit : List Char), symbol lit = strip (string lit)) ∧
    symbol ['f', 'n'] [' ', ' ', 'f', 'n', ' ', ' ', 'x'] =
      .ok (['f', 'n'], ['x']) :=
  ⟨string_append, fun lit => string_ok_inv lit, fun _ => rfl, rfl⟩

/-- Witness for C8: the success-inversion part applied at a concrete
successful parse of a literal. -/
theorem string_symbol_spec_witness :
    (['a'] : List Char) = ['a'] ∧ (['a', 'b'] : List Char) = ['a'] ++ ['b'] :=
  string_symbol_spec.2.1 ['a'] ['a', 'b'] ['a'] ['b'] rfl
